import Mathlib

/-!
Verification of daft/execution/logical_op_runners.py.

A vPartition is modelled by its list of rows; a PartitionSet with dense ids
0 .. n-1 is modelled by a list of partitions where the position in the list is
the partition id. Python dicts keyed by node id are modelled by association
lists with Python dict semantics (update in place, KeyError on deleting a
missing key). Fallible Python code (assertions, IndexError, ZeroDivisionError,
NotImplementedError, UnboundLocalError) is modelled with Option / Except.
-/

namespace DaftExec

/-- Python list indexing l[i], including negative indices: for i < 0 the index
l.length + i is used, and an out-of-range index is an IndexError (none). -/
def pyGet (l : List Nat) (i : Int) : Option Nat :=
  let j : Int := if 0 ≤ i then i else (l.length : Int) + i
  if j < 0 then none else l.get? j.toNat

/-- itertools.accumulate over naturals: running sums, no initial element. -/
def accumulate : List Nat → Nat → List Nat
  | [], _ => []
  | x :: xs, acc => (acc + x) :: accumulate xs (acc + x)

/-- bisect.bisect_right x on a list sorted in nondecreasing order: the
insertion point after any entries equal to x, i.e. the length of the longest
front segment of entries ≤ x. The cumulative-sum list it is applied to in
the global-limit handler is always nondecreasing. -/
def bisect_right (l : List Nat) (x : Nat) : Nat :=
  (l.takeWhile (fun c => decide (c ≤ x))).length

/-- Modelled from the spec: vPartition.head lives in
daft/runners/partitioning.py, which is not among the embedded sources; per the
LocalLimit description it returns the first min(k, len) rows. -/
def head (part : List α) (k : Nat) : List α :=
  part.take k

/-- The closure limit_map_func inside _handle_global_limit: partitions left of
the cut are kept, the partition at the cut keeps the first remainder rows,
partitions right of the cut become empty. -/
def limit_map_func (where_to_cut_idx remainder : Nat) (partition_id : Nat)
    (part : List α) : List α :=
  if partition_id < where_to_cut_idx then part
  else if partition_id = where_to_cut_idx then head part remainder
  else head part 0

/-- LogicalGlobalOpRunner._handle_global_limit. The child partition set is
passed directly. Returns none when the handler raises: either an IndexError
reading cum_sum, or the failure of the assertion remainder >= 0 (the
remainder is computed in Python int arithmetic, hence over Int here).
map_partitions rebuilds the set with the same ids, so it is List.mapIdx. -/
def handle_global_limit (num : Nat) (prev_part : List (List α)) :
    Option (List (List α)) :=
  let size_per_partition := prev_part.map List.length
  let total_size := size_per_partition.sum
  if total_size ≤ num then some prev_part
  else
    let cum_sum := accumulate size_per_partition 0
    let where_to_cut_idx := bisect_right cum_sum num
    match pyGet cum_sum ((where_to_cut_idx : Int) - 1) with
    | none => none
    | some count_so_far =>
      if (num : Int) - (count_so_far : Int) < 0 then none
      else
        some (prev_part.mapIdx (fun i part =>
          limit_map_func where_to_cut_idx (num - count_so_far) i part))

/-- PyRunnerSimpleShuffler.run. A map result (a Python dict from target id to
sub-partition) is an association list; "t in map_results[i]" is a successful
lookup and "map_results[i][t]" is its value. The returned PartitionSet,
built from enumerate(reduced_results), is the association list pairing each
target id t in 0 .. m-1 with the reduction for t. map_fn and reduce_fn are
the mixin methods the concrete shuffle ops supply; they are parameters. -/
def shuffle_run (map_fn : α → Nat → List (Nat × β)) (reduce_fn : List β → β)
    (input : List α) (num_target_partitions : Nat) : List (Nat × β) :=
  let map_results := input.map (fun p => map_fn p num_target_partitions)
  (List.range num_target_partitions).map
    (fun t => (t, reduce_fn (map_results.filterMap (fun Mi => Mi.lookup t))))

/-- The IN_MEMORY branch of LogicalPartitionOpRunner._handle_scan. The data
dict is modelled as its list of columns in key order; table_len is the length
of the first column (an IndexError, hence none, when there are no columns);
num_partitions = 0 is a ZeroDivisionError. Each column is sliced with the
Python slice [partition_size * partition_id : partition_size *
(partition_id + 1)], which clamps at the column end. -/
def handle_scan_in_memory (data : List (List α)) (num_partitions : Nat)
    (partition_id : Nat) : Option (List (List α)) :=
  match data with
  | [] => none
  | c0 :: _ =>
    if num_partitions = 0 then none
    else
      let table_len := c0.length
      let partition_size := table_len / num_partitions
      let start := partition_size * partition_id
      let stop := partition_size * (partition_id + 1)
      some (data.map (fun col => (col.drop start).take (stop - start)))

/-- The two assertions of _handle_sort that can fail: the single sort
expression assertion and the single sample column assertion. -/
inductive SortAssertFail where
  | sort_by_len : SortAssertFail
  | columns_len : SortAssertFail
deriving DecidableEq, Repr

/-- The vPartition / block capability surface that _handle_sort calls
(partitioning.py is not among the embedded sources; the core treats these as
abstract per the external-interface section of the spec). P is the partition
type, C the column type, B the boundaries type, E the expression type. -/
structure SortCaps (P C B E : Type) where
  sample : P → Nat → P
  eval_expression_list : P → List E → P
  merge_partitions : List P → P
  columns : P → List C
  quantiles : C → Nat → B

/-- LogicalGlobalOpRunner._handle_sort. sort_map_fn and sort_reduce_fn stand
for SortOp.map_fn with map_args {expr, boundaries, desc} and SortOp.reduce_fn
with reduce_args {expr, desc} (shuffle_ops.py is not among the embedded
sources). map_partitions over the child set maps over the partitions in id
order; reduce_partitions passes the list of partitions in id order. The two
Python assertions become the error branches: a failed assertion aborts the
handler before the shuffle runs. -/
def handle_sort (caps : SortCaps P C B E)
    (sort_map_fn : E → B → Bool → P → Nat → List (Nat × P))
    (sort_reduce_fn : E → Bool → List P → P)
    (sort_by : List E) (desc : Bool) (num_partitions : Nat)
    (prev_part : List P) : Except SortAssertFail (List (Nat × P)) :=
  let SAMPLES_PER_PARTITION := 20
  let sample_map_func : P → P := fun part =>
    caps.eval_expression_list (caps.sample part SAMPLES_PER_PARTITION) sort_by
  let sampled_partitions := prev_part.map sample_map_func
  let merged_samples := caps.merge_partitions sampled_partitions
  if h1 : sort_by.length = 1 then
    if h2 : (caps.columns merged_samples).length = 1 then
      let first_column := (caps.columns merged_samples).get ⟨0, by omega⟩
      let boundaries := caps.quantiles first_column num_partitions
      let expr := sort_by.get ⟨0, by omega⟩
      Except.ok (shuffle_run (sort_map_fn expr boundaries desc)
        (sort_reduce_fn expr desc) prev_part num_partitions)
    else Except.error SortAssertFail.columns_len
  else Except.error SortAssertFail.sort_by_len

/-- A concrete capability instance used to evaluate the sort handler on
closed inputs: partitions, columns and boundaries are lists of naturals and
expressions are naturals. -/
def exSortCaps : SortCaps (List Nat) (List Nat) (List Nat) Nat where
  sample := fun p k => p.take k
  eval_expression_list := fun p _ => p
  merge_partitions := fun l => l.flatten
  columns := fun p => [p]
  quantiles := fun c n => c.take (n - 1)

/-- A concrete stand-in for SortOp.map_fn: route the whole partition to
target 0. -/
def exSortMapFn (_e : Nat) (_b : List Nat) (_d : Bool) (p : List Nat)
    (_m : Nat) : List (Nat × List Nat) :=
  [(0, p)]

/-- A concrete stand-in for SortOp.reduce_fn: concatenate. -/
def exSortReduceFn (_e : Nat) (_d : Bool) (l : List (List Nat)) : List Nat :=
  l.flatten

/-- The operator kind of a LogicalPlan node: the isinstance checks of the two
run_single_node dispatchers distinguish exactly these ten variants. -/
inductive NodeKind where
  | scan
  | projection
  | filter
  | local_limit
  | local_aggregate
  | join
  | global_limit
  | repartition
  | sort
  | coalesce
deriving DecidableEq, Repr

/-- A LogicalPlan node as the runners see it: a stable id, the ids of its
children (node._children() followed by .id()), and its operator kind. -/
structure Node where
  id : Nat
  children : List Nat
  kind : NodeKind
deriving DecidableEq, Repr

/-- Python dict assignment d[k] = v on an association list: the first binding
of k is replaced in place, otherwise the binding is appended. -/
def dict_set : List (Nat × α) → Nat → α → List (Nat × α)
  | [], k, v => [(k, v)]
  | (k', v') :: rest, k, v =>
    if k' = k then (k, v) :: rest else (k', v') :: dict_set rest k v

/-- Python del d[k]: the first binding of k is removed; deleting an absent
key is a KeyError (none). -/
def dict_del : List (Nat × α) → Nat → Option (List (Nat × α))
  | [], _ => none
  | (k', v') :: rest, k =>
    if k' = k then some rest
    else (dict_del rest k).map (fun r => (k', v') :: r)

/-- The loop of run_node_list that deletes every child binding of the node
just run, in order; a missing child is a KeyError aborting the run. -/
def del_children : List (Nat × α) → List Nat → Option (List (Nat × α))
  | d, [] => some d
  | d, c :: cs =>
    match dict_del d c with
    | none => none
    | some d' => del_children d' cs

/-- The for-loop of run_node_list. f is run_single_node (partition_id, when
present, is already applied); the accumulator is the Python variable output,
none while still unassigned. Each iteration runs the node on the working
map, binds the output under the node id, then deletes every child binding;
any raise aborts with none, and the empty loop returns the unassigned
accumulator (an UnboundLocalError, hence none). -/
def run_go (f : List (Nat × α) → Node → Option α) :
    List (Nat × α) → List Node → Option α → Option α
  | _, [], last => last
  | part_set, node :: rest, _ =>
    match f part_set node with
    | none => none
    | some output =>
      match del_children (dict_set part_set node.id output) node.children with
      | none => none
      | some part_set' => run_go f part_set' rest (some output)

/-- LogicalGlobalOpRunner.run_node_list: the working map starts as a copy of
inputs and the output variable starts unassigned. -/
def run_node_list_global (f : List (Nat × α) → Node → Option α)
    (inputs : List (Nat × α)) (nodes : List Node) : Option α :=
  run_go f inputs nodes none

/-- LogicalPartitionOpRunner.run_node_list: the same body, with the handler
also receiving the partition id. -/
def run_node_list_local (f : List (Nat × α) → Node → Nat → Option α)
    (inputs : List (Nat × α)) (nodes : List Node) (partition_id : Nat) :
    Option α :=
  run_go (fun d n => f d n partition_id) inputs nodes none

/-- Reading a dict reference from a heap of dicts (aliasing model for the
frame property of run_node_list: Python dict objects live on a heap and the
caller passes a reference). -/
def heapGet (h : List (List (Nat × α))) (r : Nat) : List (Nat × α) :=
  h.getD r []

/-- Overwriting a dict reference on the heap. -/
def heapSet (h : List (List (Nat × α))) (r : Nat) (d : List (Nat × α)) :
    List (List (Nat × α)) :=
  h.set r d

/-- The child-deletion loop acting on the heap cell r (the working map). On
a KeyError the heap keeps the deletions already performed and the run
aborts. -/
def del_children_heap : List (List (Nat × α)) → Nat → List Nat →
    Option Unit × List (List (Nat × α))
  | h, _, [] => (some (), h)
  | h, r, c :: cs =>
    match dict_del (heapGet h r) c with
    | none => (none, h)
    | some d' => del_children_heap (heapSet h r d') r cs

/-- The run_node_list loop acting on the heap: every write of the loop body
targets the cell r holding part_set. -/
def run_go_heap (f : List (Nat × α) → Node → Option α) :
    List (List (Nat × α)) → Nat → List Node → Option α →
    Option α × List (List (Nat × α))
  | h, _, [], last => (last, h)
  | h, r, node :: rest, _ =>
    match f (heapGet h r) node with
    | none => (none, h)
    | some output =>
      let h1 := heapSet h r (dict_set (heapGet h r) node.id output)
      match del_children_heap h1 r node.children with
      | (none, h2) => (none, h2)
      | (some _, h2) => run_go_heap f h2 r rest (some output)

/-- LogicalGlobalOpRunner.run_node_list over the heap: part_set =
inputs.copy() allocates a fresh cell (at the end of the heap) holding a copy
of the dict referenced by inputs, and the loop works on that fresh cell.
Returns the result (none on any raise) and the final heap. -/
def run_node_list_heap_global (f : List (Nat × α) → Node → Option α)
    (h : List (List (Nat × α))) (inputs : Nat) (nodes : List Node) :
    Option α × List (List (Nat × α)) :=
  run_go_heap f (h ++ [heapGet h inputs]) h.length nodes none

/-- LogicalPartitionOpRunner.run_node_list over the heap. -/
def run_node_list_heap_local (f : List (Nat × α) → Node → Nat → Option α)
    (h : List (List (Nat × α))) (inputs : Nat) (nodes : List Node)
    (partition_id : Nat) : Option α × List (List (Nat × α)) :=
  run_node_list_heap_global (fun d n => f d n partition_id) h inputs nodes

/-- A raised Python error as the dispatchers surface it: the
NotImplementedError of the final else branch, or any error a handler
raises. -/
inductive PyRunError where
  | not_implemented
  | handler_error
deriving DecidableEq, Repr

/-- The six per-operator handlers of LogicalPartitionOpRunner, as abstract
fallible functions of (inputs, node, partition_id). -/
structure LocalHandlers (α : Type) where
  handle_scan : List (Nat × α) → Node → Nat → Except PyRunError α
  handle_projection : List (Nat × α) → Node → Nat → Except PyRunError α
  handle_filter : List (Nat × α) → Node → Nat → Except PyRunError α
  handle_local_limit : List (Nat × α) → Node → Nat → Except PyRunError α
  handle_local_aggregate : List (Nat × α) → Node → Nat → Except PyRunError α
  handle_join : List (Nat × α) → Node → Nat → Except PyRunError α

/-- The four per-operator handlers of LogicalGlobalOpRunner. -/
structure GlobalHandlers (α : Type) where
  handle_global_limit : List (Nat × α) → Node → Except PyRunError α
  handle_repartition : List (Nat × α) → Node → Except PyRunError α
  handle_sort : List (Nat × α) → Node → Except PyRunError α
  handle_coalesce : List (Nat × α) → Node → Except PyRunError α

/-- LogicalPartitionOpRunner.run_single_node: the isinstance dispatch over
Scan, Projection, Filter, LocalLimit, LocalAggregate, Join, with the final
else raising NotImplementedError. -/
def run_single_node_local (H : LocalHandlers α) (inputs : List (Nat × α))
    (node : Node) (partition_id : Nat) : Except PyRunError α :=
  match node.kind with
  | NodeKind.scan => H.handle_scan inputs node partition_id
  | NodeKind.projection => H.handle_projection inputs node partition_id
  | NodeKind.filter => H.handle_filter inputs node partition_id
  | NodeKind.local_limit => H.handle_local_limit inputs node partition_id
  | NodeKind.local_aggregate => H.handle_local_aggregate inputs node partition_id
  | NodeKind.join => H.handle_join inputs node partition_id
  | _ => Except.error PyRunError.not_implemented

/-- LogicalGlobalOpRunner.run_single_node: the isinstance dispatch over
GlobalLimit, Repartition, Sort, Coalesce, with the final else raising
NotImplementedError. -/
def run_single_node_global (H : GlobalHandlers α) (inputs : List (Nat × α))
    (node : Node) : Except PyRunError α :=
  match node.kind with
  | NodeKind.global_limit => H.handle_global_limit inputs node
  | NodeKind.repartition => H.handle_repartition inputs node
  | NodeKind.sort => H.handle_sort inputs node
  | NodeKind.coalesce => H.handle_coalesce inputs node
  | _ => Except.error PyRunError.not_implemented

/-- A concrete local handler bundle for closed evaluation. -/
def exLocalHandlers : LocalHandlers Nat where
  handle_scan := fun _ _ _ => Except.ok 0
  handle_projection := fun _ _ _ => Except.ok 0
  handle_filter := fun _ _ _ => Except.ok 0
  handle_local_limit := fun _ _ _ => Except.ok 0
  handle_local_aggregate := fun _ _ _ => Except.ok 0
  handle_join := fun _ _ _ => Except.ok 0

/-- A concrete global handler bundle for closed evaluation. -/
def exGlobalHandlers : GlobalHandlers Nat where
  handle_global_limit := fun _ _ => Except.ok 0
  handle_repartition := fun _ _ => Except.ok 0
  handle_sort := fun _ _ => Except.ok 0
  handle_coalesce := fun _ _ => Except.ok 0

end DaftExec

namespace DaftExec

lemma lookup_range_map (g : Nat → β) (m t : Nat) (ht : t < m) :
    (((List.range m).map (fun i => (i, g i))).lookup t) = some (g t) := by
  have h : ∀ (l : List Nat), t ∈ l →
      ((l.map (fun i => (i, g i))).lookup t) = some (g t) := by
    intro l
    induction l with
    | nil => intro h; cases h
    | cons a l ih =>
      intro hmem
      by_cases hta : t = a
      · subst hta
        simp [List.lookup]
      · have htl : t ∈ l := by
          rcases List.mem_cons.mp hmem with h | h
          · exact absurd h hta
          · exact h
        have hba : (t == a) = false := beq_eq_false_iff_ne.mpr hta
        simp only [List.map_cons, List.lookup, hba]
        exact ih htl
  exact h (List.range m) (List.mem_range.mpr ht)

lemma map_fst_range_map (g : Nat → β) (m : Nat) :
    (((List.range m).map (fun i => (i, g i))).map Prod.fst) = List.range m := by
  rw [List.map_map]
  have hc : (Prod.fst ∘ fun i : Nat => (i, g i)) = id := rfl
  rw [hc, List.map_id]

/-- C1: the claim asserts that with k smaller than the length of partition 0
(j = 0, r = k) the handler still returns the cut partition set, reading
C[-1] as 0. On partitions of lengths 5 and 5 with k = 2 the code instead
reads cum_sum[-1] = 10 (Python negative indexing yields the last cumulative
sum, the total), computes remainder = 2 - 10 < 0, and fails its own
assertion: the handler raises and returns nothing. -/
theorem global_limit_c1_failing :
    handle_global_limit 2 [[0, 1, 2, 3, 4], [5, 6, 7, 8, 9]] = none := by
  decide

/-- C2: the claim asserts total output rows = min(k, total input rows) for
every k ≥ 0. At k = 0 with one input partition of one row, the code reads
cum_sum[-1] = 1, computes remainder = 0 - 1 < 0, and fails its assertion:
no partition set is produced at all. -/
theorem global_limit_c2_failing :
    handle_global_limit 0 [[7]] = none := by
  decide

/-- C3: the shuffle kernel applies map_fn once per source partition (giving
the list input.map (fun p => map_fn p m)); the produced set binds exactly
the target ids 0 .. m-1, in order and each exactly once; and each target t
is bound to reduce_fn applied to the sub-partitions M_i[t], taken over the
sources in ascending partition order, skipping sources whose map result has
no entry for t. -/
theorem shuffle_run_spec (map_fn : α → Nat → List (Nat × β))
    (reduce_fn : List β → β) (input : List α) (m t : Nat) (ht : t < m) :
    (shuffle_run map_fn reduce_fn input m).map Prod.fst = List.range m ∧
    (shuffle_run map_fn reduce_fn input m).lookup t =
      some (reduce_fn
        ((input.map (fun p => map_fn p m)).filterMap (fun Mi => Mi.lookup t))) := by
  constructor
  · exact map_fst_range_map
      (fun t => reduce_fn
        ((input.map (fun p => map_fn p m)).filterMap (fun Mi => Mi.lookup t)))
      m
  · exact lookup_range_map
      (fun t => reduce_fn
        ((input.map (fun p => map_fn p m)).filterMap (fun Mi => Mi.lookup t)))
      m t ht

/-- C3 witness: the kernel evaluated at a concrete instance, routing each
number p to target p % 2 and reducing by summation. -/
theorem shuffle_run_spec_witness :
    (shuffle_run (fun (p : Nat) (m : Nat) => [(p % m, p)]) List.sum
        [3, 4, 5] 2).map Prod.fst = List.range 2 ∧
    (shuffle_run (fun (p : Nat) (m : Nat) => [(p % m, p)]) List.sum
        [3, 4, 5] 2).lookup 1 =
      some (List.sum
        (([3, 4, 5].map (fun p => [(p % 2, p)])).filterMap
          (fun Mi => Mi.lookup 1))) :=
  shuffle_run_spec (fun (p : Nat) (m : Nat) => [(p % m, p)]) List.sum
    [3, 4, 5] 2 1 (by decide)

/-- C5: scanning an in-memory source with first-column length N and np
partitions at partition id p < np yields, for every column, exactly the rows
with indices in [p * (N / np), (p+1) * (N / np)): entry i of the produced
column is entry p * (N / np) + i of the source column when i < N / np and
absent otherwise. When N mod np is nonzero the trailing rows (indices from
np * (N / np) up to N) lie beyond every partition window, so they appear in
no partition. -/
theorem handle_scan_in_memory_spec (c0 : List α) (rest : List (List α))
    (np p : Nat) (hnp : 0 < np) (hp : p < np) :
    (handle_scan_in_memory (c0 :: rest) np p =
      some ((c0 :: rest).map
        (fun col => (col.drop (c0.length / np * p)).take (c0.length / np)))) ∧
    (∀ col ∈ (c0 :: rest), ∀ i : Nat,
      ((col.drop (c0.length / np * p)).take (c0.length / np))[i]? =
        if i < c0.length / np then col[c0.length / np * p + i]? else none) ∧
    (c0.length % np ≠ 0 → np * (c0.length / np) < c0.length) ∧
    (∀ q i : Nat, q < np → i < c0.length / np →
      c0.length / np * q + i < np * (c0.length / np)) := by
  refine ⟨?_, ?_, ?_, ?_⟩
  · simp only [handle_scan_in_memory]
    rw [if_neg (Nat.pos_iff_ne_zero.mp hnp)]
    have hsz : c0.length / np * (p + 1) - c0.length / np * p = c0.length / np := by
      rw [Nat.mul_succ, Nat.add_sub_cancel_left]
    rw [hsz]
  · intro col _ i
    by_cases hi : i < c0.length / np
    · rw [if_pos hi, List.getElem?_take_of_lt hi, List.getElem?_drop]
    · rw [if_neg hi]
      refine List.getElem?_eq_none ?_
      rw [List.length_take]
      omega
  · intro hmod
    have := Nat.div_add_mod c0.length np
    have hmodpos : 0 < c0.length % np := Nat.pos_of_ne_zero hmod
    omega
  · intro q i hq hi
    have hle : c0.length / np * q + c0.length / np ≤ c0.length / np * np := by
      have hq1 : q + 1 ≤ np := hq
      calc c0.length / np * q + c0.length / np
          = c0.length / np * (q + 1) := by rw [Nat.mul_succ]
        _ ≤ c0.length / np * np := Nat.mul_le_mul_left _ hq1
    have := Nat.mul_comm (c0.length / np) np
    omega

/-- C5 witness: a two-column source with 5 rows split over 2 partitions;
partition 1 holds rows 2 and 3 of each column, and row 4 is dropped. -/
theorem handle_scan_in_memory_spec_witness :
    handle_scan_in_memory [[10, 11, 12, 13, 14], [20, 21, 22, 23, 24]] 2 1 =
      some [[12, 13], [22, 23]] := by
  rw [(handle_scan_in_memory_spec [10, 11, 12, 13, 14] [[20, 21, 22, 23, 24]]
    2 1 (by decide) (by decide)).1]
  decide

/-- C4: with a single sort expression e, the sort handler samples exactly 20
rows from each input partition, evaluates e on each sample, merges all the
sampled partitions into one, takes its first column, computes boundaries by
calling the quantiles capability with argument m on it, and runs the shuffle
kernel on the original unsampled input with map arguments (e, boundaries,
desc) and reduce arguments (e, desc). The hypothesis is the second source
assertion: the merged sample partition has exactly one column. -/
theorem handle_sort_spec (caps : SortCaps P C B E)
    (smf : E → B → Bool → P → Nat → List (Nat × P))
    (srf : E → Bool → List P → P)
    (e : E) (desc : Bool) (m : Nat) (prev_part : List P)
    (hcols : (caps.columns (caps.merge_partitions (prev_part.map (fun part =>
      caps.eval_expression_list (caps.sample part 20) [e])))).length = 1) :
    handle_sort caps smf srf [e] desc m prev_part =
      Except.ok (shuffle_run
        (smf e
          (caps.quantiles
            ((caps.columns (caps.merge_partitions (prev_part.map (fun part =>
              caps.eval_expression_list (caps.sample part 20) [e])))).get
              ⟨0, by omega⟩)
            m)
          desc)
        (srf e desc) prev_part m) := by
  simp only [handle_sort]
  rw [dif_pos (show ([e] : List E).length = 1 from rfl), dif_pos hcols]
  rfl

/-- C4 witness: the handler evaluated on a closed instance of the capability
surface, producing the shuffle output. -/
theorem handle_sort_spec_witness :
    handle_sort exSortCaps exSortMapFn exSortReduceFn [5] false 2
      [[1, 2], [3]] = Except.ok [(0, [1, 2, 3]), (1, [])] := by
  rw [handle_sort_spec exSortCaps exSortMapFn exSortReduceFn 5 false 2
    [[1, 2], [3]] rfl]
  rfl

/-- C7: with more than one sort expression the handler fails the single
expression assertion, producing no partition set (and in particular never
reaching the shuffle, whose result only the Except.ok branch carries); with
exactly one sort expression that assertion passes, so the result is never
the single-expression assertion failure. -/
theorem handle_sort_assert_spec (caps : SortCaps P C B E)
    (smf : E → B → Bool → P → Nat → List (Nat × P))
    (srf : E → Bool → List P → P)
    (sort_by : List E) (desc : Bool) (m : Nat) (prev_part : List P) :
    (1 < sort_by.length →
      handle_sort caps smf srf sort_by desc m prev_part =
        Except.error SortAssertFail.sort_by_len) ∧
    (sort_by.length = 1 →
      handle_sort caps smf srf sort_by desc m prev_part ≠
        Except.error SortAssertFail.sort_by_len) := by
  constructor
  · intro hgt
    simp only [handle_sort]
    rw [dif_neg (by omega)]
  · intro h1
    simp only [handle_sort]
    rw [dif_pos h1]
    split
    · simp
    · simp

lemma lookup_eq_none_of_not_mem_keys (d : List (Nat × α)) (k : Nat)
    (h : k ∉ d.map Prod.fst) : d.lookup k = none := by
  induction d with
  | nil => rfl
  | cons p rest ih =>
    obtain ⟨k', v'⟩ := p
    simp only [List.map_cons, List.mem_cons] at h
    push_neg at h
    simp only [List.lookup, beq_eq_false_iff_ne.mpr h.1]
    exact ih h.2

lemma dict_set_lookup_self (d : List (Nat × α)) (k : Nat) (v : α) :
    (dict_set d k v).lookup k = some v := by
  induction d with
  | nil => simp [dict_set, List.lookup]
  | cons p rest ih =>
    obtain ⟨k', v'⟩ := p
    simp only [dict_set]
    split
    · simp [List.lookup]
    · next h =>
      have hkk : (k == k') = false := beq_eq_false_iff_ne.mpr (Ne.symm h)
      simp only [List.lookup, hkk]
      exact ih

lemma mem_keys_dict_set (d : List (Nat × α)) (k k₀ : Nat) (v : α) :
    k₀ ∈ (dict_set d k v).map Prod.fst ↔ k₀ = k ∨ k₀ ∈ d.map Prod.fst := by
  induction d with
  | nil => simp [dict_set]
  | cons p rest ih =>
    obtain ⟨k', v'⟩ := p
    simp only [dict_set]
    split
    · next h =>
      subst h
      simp only [List.map_cons, List.mem_cons]
      tauto
    · simp only [List.map_cons, List.mem_cons, ih]
      tauto

lemma dict_set_nodup (d : List (Nat × α)) (k : Nat) (v : α)
    (hnd : (d.map Prod.fst).Nodup) : ((dict_set d k v).map Prod.fst).Nodup := by
  induction d with
  | nil => simp [dict_set]
  | cons p rest ih =>
    obtain ⟨k', v'⟩ := p
    simp only [List.map_cons, List.nodup_cons] at hnd
    simp only [dict_set]
    split
    · next h =>
      subst h
      simp only [List.map_cons, List.nodup_cons]
      exact hnd
    · next h =>
      simp only [List.map_cons, List.nodup_cons]
      refine ⟨?_, ih hnd.2⟩
      rw [mem_keys_dict_set]
      push_neg
      exact ⟨h, hnd.1⟩

lemma dict_del_sublist (d d' : List (Nat × α)) (c : Nat)
    (h : dict_del d c = some d') : List.Sublist d' d := by
  induction d generalizing d' with
  | nil => simp [dict_del] at h
  | cons p rest ih =>
    obtain ⟨k', v'⟩ := p
    simp only [dict_del] at h
    split at h
    · cases h
      exact List.sublist_cons_self _ _
    · rw [Option.map_eq_some'] at h
      obtain ⟨r, hr, rfl⟩ := h
      exact (ih r hr).cons₂ (k', v')

lemma dict_del_nodup (d d' : List (Nat × α)) (c : Nat)
    (hnd : (d.map Prod.fst).Nodup) (h : dict_del d c = some d') :
    (d'.map Prod.fst).Nodup :=
  hnd.sublist ((dict_del_sublist d d' c h).map Prod.fst)

lemma dict_del_lookup_self (d d' : List (Nat × α)) (c : Nat)
    (hnd : (d.map Prod.fst).Nodup) (h : dict_del d c = some d') :
    d'.lookup c = none := by
  induction d generalizing d' with
  | nil => simp [dict_del] at h
  | cons p rest ih =>
    obtain ⟨k', v'⟩ := p
    simp only [List.map_cons, List.nodup_cons] at hnd
    simp only [dict_del] at h
    split at h
    · next hk =>
      cases h
      subst hk
      exact lookup_eq_none_of_not_mem_keys _ _ hnd.1
    · next hk =>
      rw [Option.map_eq_some'] at h
      obtain ⟨r, hr, rfl⟩ := h
      have hck : (c == k') = false := beq_eq_false_iff_ne.mpr (fun hc => hk hc.symm)
      simp only [List.lookup, hck]
      exact ih r hnd.2 hr

lemma dict_del_lookup_ne (d d' : List (Nat × α)) (c k : Nat) (hne : k ≠ c)
    (h : dict_del d c = some d') : d'.lookup k = d.lookup k := by
  induction d generalizing d' with
  | nil => simp [dict_del] at h
  | cons p rest ih =>
    obtain ⟨k', v'⟩ := p
    simp only [dict_del] at h
    split at h
    · next hk =>
      cases h
      subst hk
      simp only [List.lookup, beq_eq_false_iff_ne.mpr hne]
    · next hk =>
      rw [Option.map_eq_some'] at h
      obtain ⟨r, hr, rfl⟩ := h
      by_cases hkk : k = k'
      · subst hkk
        simp [List.lookup]
      · simp only [List.lookup, beq_eq_false_iff_ne.mpr hkk]
        exact ih r hr

lemma del_children_spec (cs : List Nat) :
    ∀ (d d' : List (Nat × α)), (d.map Prod.fst).Nodup →
      del_children d cs = some d' →
      ((d'.map Prod.fst).Nodup ∧ (∀ c ∈ cs, d'.lookup c = none) ∧
       ∀ k, k ∉ cs → d'.lookup k = d.lookup k) := by
  induction cs with
  | nil =>
    intro d d' hnd h
    simp only [del_children, Option.some.injEq] at h
    subst h
    exact ⟨hnd, by simp, fun _ _ => rfl⟩
  | cons c cs ih =>
    intro d d' hnd h
    simp only [del_children] at h
    cases hdel : dict_del d c with
    | none => rw [hdel] at h; cases h
    | some dmid =>
      rw [hdel] at h
      have hmid_nd := dict_del_nodup d dmid c hnd hdel
      obtain ⟨hnd', hcs, hother⟩ := ih dmid d' hmid_nd h
      refine ⟨hnd', ?_, ?_⟩
      · intro c' hc'
        by_cases hccs : c' ∈ cs
        · exact hcs c' hccs
        · have hc'c : c' = c := by
            rcases List.mem_cons.mp hc' with hx | hx
            · exact hx
            · exact absurd hx hccs
          subst hc'c
          rw [hother c' hccs]
          exact dict_del_lookup_self d dmid c' hnd hdel
      · intro k hk
        simp only [List.mem_cons, not_or] at hk
        rw [hother k hk.2]
        exact dict_del_lookup_ne d dmid c k hk.1 hdel

lemma run_go_last (f : List (Nat × α) → Node → Option α) (ns : List Node) :
    ∀ (d : List (Nat × α)) (n : Node) (acc : Option α) (v : α),
      run_go f d (ns ++ [n]) acc = some v → ∃ m, f m n = some v := by
  induction ns with
  | nil =>
    intro d n acc v h
    simp only [List.nil_append, run_go] at h
    split at h
    · cases h
    · next output hf =>
      split at h
      · cases h
      · next ps' hdel =>
        exact ⟨d, hf.trans h⟩
  | cons a ns ih =>
    intro d n acc v h
    simp only [List.cons_append, run_go] at h
    split at h
    · cases h
    · next output hf =>
      split at h
      · cases h
      · next ps' hdel =>
        exact ih ps' n (some output) v h

/-- C6: for both runners, the run_node_list loop maintains the registry
discipline and returns the output of the last node. First conjunct: one
iteration of the loop on a working map with distinct keys, for a node that
is not its own child (the node list is a topological chain), whose handler
output is given and whose children are all present (the deletions succeed),
continues on a working map that binds the output under the node id and
holds no binding for any child of the node, and still has distinct keys.
Remaining conjuncts: on a non-empty chain, a returned value is the handler
output of the last node, for the global and the local runner
respectively. -/
theorem run_node_list_spec (f : List (Nat × α) → Node → Option α)
    (g : List (Nat × α) → Node → Nat → Option α) (pid : Nat) :
    (∀ (part_set part_set' : List (Nat × α)) (node : Node)
       (rest : List Node) (acc : Option α) (output : α),
      (part_set.map Prod.fst).Nodup → node.id ∉ node.children →
      f part_set node = some output →
      del_children (dict_set part_set node.id output) node.children =
        some part_set' →
      (run_go f part_set (node :: rest) acc =
         run_go f part_set' rest (some output) ∧
       part_set'.lookup node.id = some output ∧
       (∀ c ∈ node.children, part_set'.lookup c = none) ∧
       (part_set'.map Prod.fst).Nodup)) ∧
    (∀ (inputs : List (Nat × α)) (ns : List Node) (n : Node) (v : α),
      run_node_list_global f inputs (ns ++ [n]) = some v →
      ∃ m, f m n = some v) ∧
    (∀ (inputs : List (Nat × α)) (ns : List Node) (n : Node) (v : α),
      run_node_list_local g inputs (ns ++ [n]) pid = some v →
      ∃ m, g m n pid = some v) := by
  refine ⟨?_, ?_, ?_⟩
  · intro ps ps' node rest acc output hnd hidc hf hdel
    obtain ⟨hnd', hcs, hother⟩ :=
      del_children_spec node.children (dict_set ps node.id output) ps'
        (dict_set_nodup ps node.id output hnd) hdel
    refine ⟨?_, ?_, hcs, hnd'⟩
    · simp only [run_go, hf, hdel]
    · rw [hother node.id hidc]
      exact dict_set_lookup_self ps node.id output
  · intro inputs ns n v h
    exact run_go_last f ns inputs n none v h
  · intro inputs ns n v h
    exact run_go_last (fun d n => g d n pid) ns inputs n none v h

/-- C6 witness: one loop iteration on the map binding node 0, for node 1
with child 0 and handler output 42, continues on the map binding only node
1 to 42; and the one-node chain returns 42 through both runners (the global
one shown). -/
theorem run_node_list_spec_witness :
    (run_go (fun (_ : List (Nat × Nat)) (_ : Node) => some 42) [(0, 7)]
        [⟨1, [0], NodeKind.global_limit⟩] none =
      run_go (fun (_ : List (Nat × Nat)) (_ : Node) => some 42) [(1, 42)] []
        (some 42) ∧
     ([(1, 42)] : List (Nat × Nat)).lookup 1 = some 42 ∧
     (∀ c ∈ [0], ([(1, 42)] : List (Nat × Nat)).lookup c = none) ∧
     (([(1, 42)] : List (Nat × Nat)).map Prod.fst).Nodup) ∧
    (∃ m : List (Nat × Nat),
      (fun (_ : List (Nat × Nat)) (_ : Node) => some 42) m
        ⟨1, [0], NodeKind.global_limit⟩ = some 42) :=
  ⟨(run_node_list_spec (fun _ _ => some 42) (fun _ _ _ => some 42) 0).1
      [(0, 7)] [(1, 42)] ⟨1, [0], NodeKind.global_limit⟩ [] none 42
      (by decide) (by decide) rfl rfl,
   (run_node_list_spec (fun _ _ => some 42) (fun _ _ _ => some 42) 0).2.1
      [(0, 7)] [] ⟨1, [0], NodeKind.global_limit⟩ 42 rfl⟩

/-- C9: for both runners, run_node_list on an empty node list raises
(UnboundLocalError: the returned variable output was never assigned) instead
of returning a partition set: the result is none for every handler and
every inputs mapping. -/
theorem run_node_list_empty_raises (f : List (Nat × α) → Node → Option α)
    (g : List (Nat × α) → Node → Nat → Option α)
    (inputs : List (Nat × α)) (pid : Nat) :
    run_node_list_global f inputs [] = none ∧
    run_node_list_local g inputs [] pid = none :=
  ⟨rfl, rfl⟩

/-- C7 witness: two sort expressions trip the assertion on a concrete input;
one sort expression does not. -/
theorem handle_sort_assert_spec_witness :
    (handle_sort exSortCaps exSortMapFn exSortReduceFn [5, 6] false 2 [[1]] =
      Except.error SortAssertFail.sort_by_len) ∧
    (handle_sort exSortCaps exSortMapFn exSortReduceFn [5] false 2 [[1]] ≠
      Except.error SortAssertFail.sort_by_len) :=
  ⟨(handle_sort_assert_spec exSortCaps exSortMapFn exSortReduceFn [5, 6]
      false 2 [[1]]).1 (by decide),
   (handle_sort_assert_spec exSortCaps exSortMapFn exSortReduceFn [5]
      false 2 [[1]]).2 rfl⟩

lemma heapGet_heapSet_ne (h : List (List (Nat × α))) (r r' : Nat)
    (d : List (Nat × α)) (hne : r' ≠ r) :
    heapGet (heapSet h r d) r' = heapGet h r' := by
  simp only [heapGet, heapSet, List.getD_eq_getElem?_getD]
  rw [List.getElem?_set_ne (Ne.symm hne)]

lemma del_children_heap_frame (cs : List Nat) :
    ∀ (h : List (List (Nat × α))) (r r' : Nat), r' ≠ r →
      heapGet (del_children_heap h r cs).2 r' = heapGet h r' := by
  induction cs with
  | nil => intro h r r' _; rfl
  | cons c cs ih =>
    intro h r r' hne
    simp only [del_children_heap]
    split
    · rfl
    · next d' hd =>
      rw [ih (heapSet h r d') r r' hne, heapGet_heapSet_ne h r r' d' hne]

lemma run_go_heap_frame (f : List (Nat × α) → Node → Option α)
    (nodes : List Node) :
    ∀ (h : List (List (Nat × α))) (r r' : Nat) (acc : Option α), r' ≠ r →
      heapGet (run_go_heap f h r nodes acc).2 r' = heapGet h r' := by
  induction nodes with
  | nil => intro h r r' acc _; rfl
  | cons node rest ih =>
    intro h r r' acc hne
    simp only [run_go_heap]
    split
    · rfl
    · next output hf =>
      have hdc := del_children_heap_frame node.children
        (heapSet h r (dict_set (heapGet h r) node.id output)) r r' hne
      split
      · next h2 heq =>
        rw [heq] at hdc
        rw [hdc, heapGet_heapSet_ne h r r' _ hne]
      · next u h2 heq =>
        rw [heq] at hdc
        rw [ih h2 r r' (some output) hne, hdc,
          heapGet_heapSet_ne h r r' _ hne]

/-- C10: for both runners, run_node_list does not mutate the dict the caller
passes: part_set = inputs.copy() allocates a fresh heap cell and every write
of the loop (the output insertion and the child deletions) targets that
cell, so after the call, successful or aborted, the cell the caller passed
holds exactly the bindings it held before. -/
theorem run_node_list_frame (f : List (Nat × α) → Node → Option α)
    (g : List (Nat × α) → Node → Nat → Option α)
    (h : List (List (Nat × α))) (inputs : Nat) (nodes : List Node) (pid : Nat)
    (hr : inputs < h.length) :
    heapGet (run_node_list_heap_global f h inputs nodes).2 inputs =
      heapGet h inputs ∧
    heapGet (run_node_list_heap_local g h inputs nodes pid).2 inputs =
      heapGet h inputs := by
  have key : ∀ f' : List (Nat × α) → Node → Option α,
      heapGet (run_go_heap f' (h ++ [heapGet h inputs]) h.length nodes
        none).2 inputs = heapGet h inputs := by
    intro f'
    rw [run_go_heap_frame f' nodes (h ++ [heapGet h inputs]) h.length inputs
      none (Nat.ne_of_lt hr)]
    simp only [heapGet, List.getD_eq_getElem?_getD]
    rw [List.getElem?_append_left hr]
  exact ⟨key f, key (fun d n => g d n pid)⟩

/-- C10 witness: a heap with one dict bound at reference 0; after running a
one-node chain through either runner the cell the caller passed is
unchanged. -/
theorem run_node_list_frame_witness :
    heapGet (run_node_list_heap_global
        (fun (_ : List (Nat × Nat)) (_ : Node) => some 1) [[(5, 9)]] 0
        [⟨2, [5], NodeKind.coalesce⟩]).2 0 = heapGet [[(5, 9)]] 0 ∧
    heapGet (run_node_list_heap_local
        (fun (_ : List (Nat × Nat)) (_ : Node) (_ : Nat) => some 1)
        [[(5, 9)]] 0 [⟨2, [5], NodeKind.coalesce⟩] 3).2 0 =
      heapGet [[(5, 9)]] 0 :=
  run_node_list_frame (fun _ _ => some 1) (fun _ _ _ => some 1) [[(5, 9)]] 0
    [⟨2, [5], NodeKind.coalesce⟩] 3 (by decide)

/-- C8: the local run_single_node answers NotImplementedError for every node
whose kind is not one of Scan, Projection, Filter, LocalLimit,
LocalAggregate, Join, and the global run_single_node answers
NotImplementedError for every node whose kind is not one of GlobalLimit,
Repartition, Sort, Coalesce — in both cases whatever the handlers are, so
no handler runs and no partition set (no Except.ok value) is emitted. -/
theorem run_single_node_dispatch_spec (HL : LocalHandlers α)
    (HG : GlobalHandlers α) (inputs : List (Nat × α)) (node : Node)
    (pid : Nat) :
    (node.kind ∉ [NodeKind.scan, NodeKind.projection, NodeKind.filter,
        NodeKind.local_limit, NodeKind.local_aggregate, NodeKind.join] →
      run_single_node_local HL inputs node pid =
        Except.error PyRunError.not_implemented) ∧
    (node.kind ∉ [NodeKind.global_limit, NodeKind.repartition, NodeKind.sort,
        NodeKind.coalesce] →
      run_single_node_global HG inputs node =
        Except.error PyRunError.not_implemented) := by
  obtain ⟨nid, nch, nk⟩ := node
  cases nk <;>
    exact ⟨fun hmem => by simp_all [run_single_node_local],
           fun hmem => by simp_all [run_single_node_global]⟩

/-- C8 witness: a Sort node given to the local runner and a Scan node given
to the global runner both answer NotImplementedError. -/
theorem run_single_node_dispatch_spec_witness :
    run_single_node_local exLocalHandlers [] ⟨0, [], NodeKind.sort⟩ 0 =
      Except.error PyRunError.not_implemented ∧
    run_single_node_global exGlobalHandlers [] ⟨0, [], NodeKind.scan⟩ =
      Except.error PyRunError.not_implemented :=
  ⟨(run_single_node_dispatch_spec exLocalHandlers exGlobalHandlers []
      ⟨0, [], NodeKind.sort⟩ 0).1 (by decide),
   (run_single_node_dispatch_spec exLocalHandlers exGlobalHandlers []
      ⟨0, [], NodeKind.scan⟩ 0).2 (by decide)⟩

end DaftExec
